import Mathlib

/-!
Verification development for the astro-sdk event root-finding core.

The ephemeris engine (Swiss Ephemeris) is an external collaborator; it is
modelled by oracle functions (`lonAt`, `speedAt`, ...) giving the scalar the
engine would return at a Julian Day.  Times, longitudes and speeds are
modelled as rationals; Python's float `%` operator on a positive modulus is
floor-based, modelled by `pymod`, and Python's `int(...)` truncates toward
zero, modelled by `pyint`.  Python loops are embedded as fuel-indexed
structural recursions; a raised exception is an `Except.error` value.
-/

/-- Python's `%` operator for a real dividend and positive modulus:
`a % m = a - m * floor (a / m)`, the floor-based remainder. -/
def pymod (a m : ℚ) : ℚ := a - m * (⌊a / m⌋ : ℤ)

/-- Python's `int(...)` applied to a rational: truncation toward zero. -/
def pyint (x : ℚ) : ℤ := if 0 ≤ x then ⌊x⌋ else ⌈x⌉

/-- `CrossingService.find_planetary_return.get_diff` and the `diff`
normalisation in `EventService._refine_ingress`:
`diff = (lon - target_longitude + 180) % 360 - 180`. -/
def get_diff (lon target_longitude : ℚ) : ℚ :=
  pymod (lon - target_longitude + 180) 360 - 180

lemma pymod_eq_fract (a m : ℚ) (hm : m ≠ 0) :
    pymod a m = m * Int.fract (a / m) := by
  unfold pymod Int.fract
  field_simp

lemma pymod_nonneg (a m : ℚ) (hm : 0 < m) : 0 ≤ pymod a m := by
  rw [pymod_eq_fract a m hm.ne.symm]
  exact mul_nonneg hm.le (Int.fract_nonneg _)

lemma pymod_lt (a m : ℚ) (hm : 0 < m) : pymod a m < m := by
  rw [pymod_eq_fract a m hm.ne.symm]
  calc m * Int.fract (a / m) < m * 1 :=
        (mul_lt_mul_left hm).mpr (Int.fract_lt_one _)
    _ = m := mul_one m

lemma get_diff_lower (lon t : ℚ) : -180 ≤ get_diff lon t := by
  have h := pymod_nonneg (lon - t + 180) 360 (by norm_num)
  unfold get_diff
  linarith

lemma get_diff_upper (lon t : ℚ) : get_diff lon t < 180 := by
  have h := pymod_lt (lon - t + 180) 360 (by norm_num)
  unfold get_diff
  linarith

/-- C1: the signed-offset scalar used by the root-finders equals
`(actual - target + 180) mod 360 - 180` (with Python's floor-based `%`),
but its range is the half-open interval `[-180, 180)`: the value `-180` is
attained (when the actual longitude is diametrically opposite the target)
and `180` never is, the reverse of the spec's claimed `(-180, 180]`. -/
theorem signedOffset_formula_and_range (lon target : ℚ) :
    get_diff lon target = pymod (lon - target + 180) 360 - 180 ∧
    -180 ≤ get_diff lon target ∧ get_diff lon target < 180 :=
  ⟨rfl, get_diff_lower lon target, get_diff_upper lon target⟩

/-- C1 counterexample: at actual longitude 180 and target 0 the signed
offset is exactly `-180`, which is outside the claimed interval
`(-180, 180]`. -/
theorem signedOffset_boundary_cex :
    get_diff 180 0 = -180 ∧ ¬ (-180 < get_diff 180 0) := by
  constructor
  · unfold get_diff pymod
    norm_num
  · intro h
    have : get_diff 180 0 = -180 := by
      unfold get_diff pymod
      norm_num
    rw [this] at h
    exact lt_irrefl _ h

/-- `SiderealMode.LAHIRI` (Swiss Ephemeris sidereal-mode id 1), the
hardcoded mode that `EphemerisContext.__exit__` restores. -/
def LAHIRI : ℤ := 1

/-- `swe.TIDAL_AUTOMATIC` (= `DEFAULT_TIDAL` = 999999). -/
def TIDAL_AUTOMATIC : ℚ := 999999

/-- The engine's process-global mutable configuration: active sidereal
mode, topocentric observer position, tidal-acceleration value. -/
structure EngineConfig where
  sid_mode : ℤ
  topo : ℚ × ℚ × ℚ
  tidal : ℚ
  deriving DecidableEq

/-- The requested overrides of an `EphemerisContext`: `None` means the
field is not overridden by the context. -/
structure EphemerisContext where
  sid_mode : Option ℤ
  topo : Option (ℚ × ℚ × ℚ)
  tidal : Option ℚ
  deriving DecidableEq

/-- `EphemerisContext.__enter__`: apply each requested override to the
global engine configuration; untouched fields keep their current value. -/
def ctxEnter (c : EphemerisContext) (s : EngineConfig) : EngineConfig :=
  { sid_mode := c.sid_mode.getD s.sid_mode
    topo := c.topo.getD s.topo
    tidal := c.tidal.getD s.tidal }

/-- `EphemerisContext.__exit__` (run on both the normal and the exception
exit path of a Python `with` block): for each field that was overridden,
set a hardcoded default — `TIDAL_AUTOMATIC`, `LAHIRI`, geocentric
`(0,0,0)` — and leave the other fields alone. -/
def ctxExit (c : EphemerisContext) (s : EngineConfig) : EngineConfig :=
  let s1 := if c.tidal.isSome then { s with tidal := TIDAL_AUTOMATIC } else s
  let s2 := if c.sid_mode.isSome then { s1 with sid_mode := LAHIRI } else s1
  if c.topo.isSome then { s2 with topo := (0, 0, 0) } else s2

/-- C2: on exit the scoped context sets every overridden field to a fixed
process default (`LAHIRI`, geocentric `(0,0,0)`, `TIDAL_AUTOMATIC`) —
not to the value that was in effect before entry — and leaves fields
that were not overridden unchanged.  This holds on every exit path,
since `__exit__` runs on normal return and on exception alike. -/
theorem ctxExit_restores_fixed_defaults (c : EphemerisContext) (s : EngineConfig) :
    ctxExit c (ctxEnter c s) =
      { sid_mode := if c.sid_mode.isSome then LAHIRI else s.sid_mode
        topo := if c.topo.isSome then (0, 0, 0) else s.topo
        tidal := if c.tidal.isSome then TIDAL_AUTOMATIC else s.tidal } := by
  obtain ⟨sm, tp, td⟩ := c
  cases sm <;> cases tp <;> cases td <;>
    simp [ctxEnter, ctxExit, Option.getD]

/-- C2 counterexample: with Fagan/Bradley (mode 0) active before entry and
a context that overrides the sidereal mode, exit leaves mode `LAHIRI` (1),
not the prior mode 0 — the claimed restore-to-prior fails. -/
theorem ctxExit_not_prior_state_cex :
    (ctxExit ⟨some 5, none, none⟩
        (ctxEnter ⟨some 5, none, none⟩ ⟨0, (0, 0, 0), 999999⟩)).sid_mode = 1 ∧
    (⟨0, (0, 0, 0), 999999⟩ : EngineConfig).sid_mode = 0 ∧
    ctxExit ⟨some 5, none, none⟩
        (ctxEnter ⟨some 5, none, none⟩ ⟨0, (0, 0, 0), 999999⟩) ≠
      (⟨0, (0, 0, 0), 999999⟩ : EngineConfig) := by
  refine ⟨rfl, rfl, ?_⟩
  decide

/-- The exception taxonomy relevant to the modelled searches. -/
inductive SearchError where
  | engineError : SearchError
  | rangeTooLarge : SearchError
  deriving DecidableEq

deriving instance DecidableEq for Except

/-- Outcome of the coarse-discovery loop of
`CrossingService.find_planetary_return`: the window was exhausted with no
sign change, a bracket `[lo, hi]` was found, or the modelling fuel ran out
before the loop finished. -/
inductive BroadResult where
  | fuelOut : BroadResult
  | notFound : BroadResult
  | bracket : ℚ → ℚ → BroadResult
  deriving DecidableEq

/-- The `while curr_jd < jd_high` coarse-discovery loop of
`find_planetary_return`: sample `get_diff` at each step; once a previous
sample exists, a crossing is recorded when both samples are within 90° of
the target and the signed offset changes sign (the zero-touching
comparisons `>= 0` / `<= 0` included), giving the bracket
`[curr - step, curr]`. -/
def broadLoop (lonAt : ℚ → ℚ) (target step jdHigh : ℚ) :
    ℕ → ℚ → Option ℚ → BroadResult
  | 0, _, _ => .fuelOut
  | fuel + 1, curr, lastDiff =>
    if curr < jdHigh then
      let diff := get_diff (lonAt curr) target
      match lastDiff with
      | some ld =>
        if |diff| < 90 ∧ |ld| < 90 then
          if (ld < 0 ∧ 0 ≤ diff) ∨ (0 < ld ∧ diff ≤ 0) then
            .bracket (curr - step) curr
          else broadLoop lonAt target step jdHigh fuel (curr + step) (some diff)
        else broadLoop lonAt target step jdHigh fuel (curr + step) (some diff)
      | none => broadLoop lonAt target step jdHigh fuel (curr + step) (some diff)
    else .notFound

/-- The `while (jd_high - jd_low) > tol_jd` bisection refinement of
`find_planetary_return`: compare the sign of the midpoint offset with the
sign at the low end; move the high end down when they differ, the low end
up otherwise.  Returns `none` only when the modelling fuel runs out while
the width still exceeds the tolerance. -/
def bisectTol (lonAt : ℚ → ℚ) (target tol_jd : ℚ) :
    ℕ → ℚ → ℚ → Option ℚ
  | 0, lo, hi =>
    if tol_jd < hi - lo then none else some ((lo + hi) / 2)
  | fuel + 1, lo, hi =>
    if tol_jd < hi - lo then
      if (get_diff (lonAt lo) target < 0 ∧
            0 < get_diff (lonAt ((lo + hi) / 2)) target) ∨
          (0 < get_diff (lonAt lo) target ∧
            get_diff (lonAt ((lo + hi) / 2)) target < 0) then
        bisectTol lonAt target tol_jd fuel lo ((lo + hi) / 2)
      else bisectTol lonAt target tol_jd fuel ((lo + hi) / 2) hi
    else some ((lo + hi) / 2)

/-- `CrossingService.find_planetary_return`: set the step (0.1 day for the
Moon, id 1, else 0.5), bound the window by
`jd_start + max_search_years * 365.25`, run coarse discovery, raise
`EphemerisError` (modelled as `Except.error`) when the window is exhausted
with no crossing, otherwise bisect the bracket down to the tolerance
`tolerance_seconds / 86400` days and return the bracket midpoint. -/
def find_planetary_return (planet : ℤ) (lonAt : ℚ → ℚ)
    (target_longitude jd_start max_search_years tolerance_seconds : ℚ)
    (fuel1 fuel2 : ℕ) : Option (Except SearchError ℚ) :=
  let step : ℚ := if planet = 1 then 1 / 10 else 1 / 2
  let limit_days := max_search_years * (1461 / 4)
  let jd_high := jd_start + limit_days
  match broadLoop lonAt target_longitude step jd_high fuel1 jd_start none with
  | .fuelOut => none
  | .notFound => some (.error .engineError)
  | .bracket lo hi =>
    let tol_jd := tolerance_seconds / 86400
    match bisectTol lonAt target_longitude tol_jd fuel2 lo hi with
    | none => none
    | some t => some (.ok t)

lemma bisectTol_le (lonAt : ℚ → ℚ) (target tol : ℚ) :
    ∀ fuel lo hi t, lo ≤ hi →
      bisectTol lonAt target tol fuel lo hi = some t → lo ≤ t ∧ t ≤ hi := by
  intro fuel
  induction fuel with
  | zero =>
    intro lo hi t hle h
    unfold bisectTol at h
    split at h
    · exact absurd h (by simp)
    · rw [Option.some_inj] at h
      constructor <;> [linarith [h]; linarith [h]]
  | succ n ih =>
    intro lo hi t hle h
    unfold bisectTol at h
    split at h
    · split at h
      · have hr := ih lo ((lo + hi) / 2) t (by linarith) h
        exact ⟨hr.1, by linarith [hr.2]⟩
      · have hr := ih ((lo + hi) / 2) hi t (by linarith) h
        exact ⟨by linarith [hr.1], hr.2⟩
    · rw [Option.some_inj] at h
      constructor <;> [skip; skip] <;> linarith [h]

lemma bisectTol_isSome (lonAt : ℚ → ℚ) (target tol : ℚ) (_htol : 0 < tol) :
    ∀ n lo hi, hi - lo ≤ tol * 2 ^ n →
      ∃ t, bisectTol lonAt target tol n lo hi = some t := by
  intro n
  induction n with
  | zero =>
    intro lo hi h
    refine ⟨(lo + hi) / 2, ?_⟩
    unfold bisectTol
    rw [if_neg]
    simp only [pow_zero, mul_one] at h
    linarith
  | succ n ih =>
    intro lo hi h
    by_cases hc : tol < hi - lo
    · have hhalf : tol * 2 ^ (n + 1) = tol * 2 ^ n * 2 := by ring
      rw [hhalf] at h
      unfold bisectTol
      rw [if_pos hc]
      by_cases hbr :
          (get_diff (lonAt lo) target < 0 ∧ 0 < get_diff (lonAt ((lo + hi) / 2)) target) ∨
          (0 < get_diff (lonAt lo) target ∧ get_diff (lonAt ((lo + hi) / 2)) target < 0)
      · rw [if_pos hbr]
        exact ih lo ((lo + hi) / 2) (by linarith)
      · rw [if_neg hbr]
        exact ih ((lo + hi) / 2) hi (by linarith)
    · exact ⟨(lo + hi) / 2, by unfold bisectTol; rw [if_neg hc]⟩

/-- The output of `EventService._refine_ingress`: the refined Julian Day,
the number of bisection iterations executed, and the Julian Days at which
the engine was sampled. -/
structure RefineOut where
  value : ℚ
  steps : ℕ
  calls : List ℚ

/-- The `for _ in range(30)` body of `EventService._refine_ingress`:
bisect, moving the high end down when the midpoint's normalized offset is
strictly positive and the low end up otherwise, breaking early once the
bracket width drops below the tolerance; the fuel argument is the
remaining iteration budget of the `range`. -/
def refineIngressAux (lonAt : ℚ → ℚ) (target_lon tolerance : ℚ) :
    ℕ → ℚ → ℚ → RefineOut
  | 0, low, high => ⟨(low + high) / 2, 0, []⟩
  | fuel + 1, low, high =>
    let mid := (low + high) / 2
    let diff := get_diff (lonAt mid) target_lon
    let p := if 0 < diff then (low, mid) else (mid, high)
    if |p.2 - p.1| < tolerance then ⟨(p.1 + p.2) / 2, 1, [mid]⟩
    else
      let r := refineIngressAux lonAt target_lon tolerance fuel p.1 p.2
      ⟨r.value, r.steps + 1, mid :: r.calls⟩

/-- `EventService._refine_ingress`: bisection with a fixed 30-iteration
budget; the target longitude is `s2 * 30` (with the redundant
Pisces-to-Aries branch setting it to 0 when `s1 = 11` and `s2 = 0`). -/
def refine_ingress (lonAt : ℚ → ℚ) (jd1 jd2 : ℚ) (s1 s2 : ℤ)
    (tolerance : ℚ) : RefineOut :=
  let target_lon : ℚ := if s1 = 11 ∧ s2 = 0 then 0 else (s2 : ℚ) * 30
  refineIngressAux lonAt target_lon tolerance 30 jd1 jd2

lemma refineIngressAux_steps_le (lonAt : ℚ → ℚ) (target_lon tolerance : ℚ) :
    ∀ fuel low high,
      (refineIngressAux lonAt target_lon tolerance fuel low high).steps ≤ fuel := by
  intro fuel
  induction fuel with
  | zero => intro low high; simp [refineIngressAux]
  | succ n ih =>
    intro low high
    simp only [refineIngressAux]
    split <;> split
    · exact Nat.succ_le_succ (Nat.zero_le n)
    · exact Nat.succ_le_succ (ih _ _)
    · exact Nat.succ_le_succ (Nat.zero_le n)
    · exact Nat.succ_le_succ (ih _ _)

/-- C8: the time-tolerance bisection of `find_planetary_return` moves one
endpoint to the midpoint each iteration (halving the bracket), so for any
proper initial bracket and positive tolerance some finite fuel makes it
exit through the width test with a time inside the initial bracket; and
the fixed-budget variant `_refine_ingress` performs at most 30 bisection
steps. -/
theorem bisection_terminates_within_bracket :
    (∀ (lonAt : ℚ → ℚ) (target tol : ℚ) (fuel : ℕ) (lo hi : ℚ),
        tol < hi - lo →
        bisectTol lonAt target tol (fuel + 1) lo hi =
            bisectTol lonAt target tol fuel lo ((lo + hi) / 2) ∨
        bisectTol lonAt target tol (fuel + 1) lo hi =
            bisectTol lonAt target tol fuel ((lo + hi) / 2) hi) ∧
    (∀ (lonAt : ℚ → ℚ) (target lo hi tol : ℚ), lo < hi → 0 < tol →
        ∃ fuel t, bisectTol lonAt target tol fuel lo hi = some t ∧
          lo ≤ t ∧ t ≤ hi) ∧
    (∀ (lonAt : ℚ → ℚ) (jd1 jd2 : ℚ) (s1 s2 : ℤ) (tolerance : ℚ),
        (refine_ingress lonAt jd1 jd2 s1 s2 tolerance).steps ≤ 30) := by
  refine ⟨?_, ?_, ?_⟩
  · intro lonAt target tol fuel lo hi hc
    by_cases hbr :
        (get_diff (lonAt lo) target < 0 ∧ 0 < get_diff (lonAt ((lo + hi) / 2)) target) ∨
        (0 < get_diff (lonAt lo) target ∧ get_diff (lonAt ((lo + hi) / 2)) target < 0)
    · left
      simp only [bisectTol]
      rw [if_pos hc, if_pos hbr]
    · right
      simp only [bisectTol]
      rw [if_pos hc, if_neg hbr]
  · intro lonAt target lo hi tol hlt htol
    obtain ⟨n, hn⟩ := exists_nat_gt ((hi - lo) / tol)
    have hn2 : (n : ℚ) ≤ 2 ^ n := by
      have := Nat.lt_two_pow n
      exact_mod_cast this.le
    have hwidth : hi - lo ≤ tol * 2 ^ n := by
      rw [div_lt_iff₀ htol] at hn
      nlinarith
    obtain ⟨t, ht⟩ := bisectTol_isSome lonAt target tol htol n lo hi hwidth
    obtain ⟨h1, h2⟩ := bisectTol_le lonAt target tol n lo hi t hlt.le ht
    exact ⟨n, t, ht, h1, h2⟩
  · intro lonAt jd1 jd2 s1 s2 tolerance
    exact refineIngressAux_steps_le lonAt _ tolerance 30 jd1 jd2

/-- C8 witness: instantiating the termination statement on the constant
zero scalar over the bracket `[0, 1]` with tolerance `1/2`. -/
theorem bisection_terminates_witness :
    ∃ fuel t, bisectTol (fun _ => 0) 0 (1 / 2) fuel 0 1 = some t ∧
      0 ≤ t ∧ t ≤ 1 :=
  bisection_terminates_within_bracket.2.1 (fun _ => 0) 0 0 1 (1 / 2)
    (by norm_num) (by norm_num)

/-- One engine invocation, as recorded by the traced models: setting the
sidereal mode (`swe.set_sid_mode`), a position calculation
(`swe.calc_ut`) for a planet at a Julian Day, or an eclipse search. -/
inductive EngineCall where
  | setSidMode : EngineCall
  | calcPlanet : ℤ → ℚ → EngineCall
  | eclipseSearch : ℚ → EngineCall
  deriving DecidableEq

/-- `ALLOWED_PLANETS` from `core/constants.py`, as Swiss Ephemeris ids. -/
def ALLOWED_PLANETS : List ℤ :=
  [0, 1, 2, 3, 4, 5, 6, 7, 8, 9, 10, 11, 15, 17, 18, 19, 20]

/-- `MAX_SEARCH_DAYS = 36525` from `core/constants.py`. -/
def MAX_SEARCH_DAYS : ℚ := 36525

/-- The bracketing loop of `Ephemeris.calculate_stationary_point`
(`for _ in range(int(max_days))`): step by `step`, sample the speed, stop
with the step's endpoint and the speed before it as soon as
`last_speed * current_speed <= 0` (a non-strict product test).  Returns
the bracket data together with the sampled Julian Days. -/
def cspLoop (speedAt : ℚ → ℚ) (step : ℚ) :
    ℕ → ℚ → ℚ → Option (ℚ × ℚ) × List ℚ
  | 0, _, _ => (none, [])
  | n + 1, curr, lastSpeed =>
    if lastSpeed * speedAt (curr + step) ≤ 0 then
      (some (curr + step, lastSpeed), [curr + step])
    else
      match cspLoop speedAt step n (curr + step) (speedAt (curr + step)) with
      | (r, cs) => (r, (curr + step) :: cs)

/-- The 20-iteration refinement of `Ephemeris.calculate_stationary_point`:
bisect; keep the half whose endpoint speeds still have a non-positive
product with the tracked `last_speed` (which is updated only when the low
end moves). -/
def cspRefine (speedAt : ℚ → ℚ) :
    ℕ → ℚ → ℚ → ℚ → ℚ × List ℚ
  | 0, t1, t2, _ => ((t1 + t2) / 2, [])
  | n + 1, t1, t2, lastSpeed =>
    if lastSpeed * speedAt ((t1 + t2) / 2) ≤ 0 then
      match cspRefine speedAt n t1 ((t1 + t2) / 2) lastSpeed with
      | (v, cs) => (v, (t1 + t2) / 2 :: cs)
    else
      match cspRefine speedAt n ((t1 + t2) / 2) t2 (speedAt ((t1 + t2) / 2)) with
      | (v, cs) => (v, (t1 + t2) / 2 :: cs)

/-- `Ephemeris.calculate_stationary_point`: Sun (0), Moon (1) and bodies
outside the safelist yield `None` before any engine call; otherwise the
speed zero-crossing is bracketed with step ±1 day over
`int(max_days)` steps and refined by 20 bisection iterations.  The second
component records every engine sampling call made. -/
def calculate_stationary_point (planet : ℤ) (speedAt : ℚ → ℚ)
    (jd_start : ℚ) (forward : Bool) (max_days : ℚ) :
    Option ℚ × List EngineCall :=
  if planet ∉ ALLOWED_PLANETS ∨ planet = 0 ∨ planet = 1 then (none, [])
  else
    let step : ℚ := if forward then 1 else -1
    match cspLoop speedAt step (pyint max_days).toNat jd_start (speedAt jd_start) with
    | (none, cs) => (none, (jd_start :: cs).map (EngineCall.calcPlanet planet))
    | (some (c, lastSpeed), cs) =>
      match cspRefine speedAt 20 (c - step) c lastSpeed with
      | (v, cs2) =>
        (some v, ((jd_start :: cs) ++ cs2).map (EngineCall.calcPlanet planet))

/-- `Ephemeris.calculate_rise_set` at the engine boundary: the engine's
`rise_trans` answer is modelled by an oracle returning
`(status, tret)`; the method returns the time only when `status = 0` and
`None` otherwise (the circumpolar "no event" case). -/
def calculate_rise_set (riseOracle : ℚ → ℤ × ℚ) (jd : ℚ) : Option ℚ :=
  if (riseOracle jd).1 = 0 then some (riseOracle jd).2 else none

/-- C3 (amended): exhausting a search window yields `None` for the station
and rise/set searches, but `find_planetary_return` raises
`EphemerisError` (modelled as `Except.error`) when its window is exhausted
with no bracket — the claimed never-raise behaviour fails for the
planetary-return search. -/
theorem window_exhaustion_absence_or_raise :
    (∀ (planet : ℤ) (lonAt : ℚ → ℚ)
        (target jd_start max_search_years tolerance_seconds : ℚ)
        (fuel1 fuel2 : ℕ),
        broadLoop lonAt target (if planet = 1 then 1 / 10 else 1 / 2)
            (jd_start + max_search_years * (1461 / 4)) fuel1 jd_start none =
          .notFound →
        find_planetary_return planet lonAt target jd_start max_search_years
            tolerance_seconds fuel1 fuel2 = some (.error .engineError)) ∧
    (∀ (planet : ℤ) (speedAt : ℚ → ℚ) (jd_start : ℚ) (forward : Bool)
        (max_days : ℚ),
        (cspLoop speedAt (if forward then 1 else -1) (pyint max_days).toNat
            jd_start (speedAt jd_start)).1 = none →
        (calculate_stationary_point planet speedAt jd_start forward
            max_days).1 = none) ∧
    (∀ (riseOracle : ℚ → ℤ × ℚ) (jd : ℚ),
        (riseOracle jd).1 ≠ 0 → calculate_rise_set riseOracle jd = none) := by
  refine ⟨?_, ?_, ?_⟩
  · intro planet lonAt target jd_start years tol fuel1 fuel2 h
    simp only [find_planetary_return]
    rw [h]
  · intro planet speedAt jd_start forward max_days h
    simp only [calculate_stationary_point]
    split
    · rfl
    · rcases _hc : cspLoop speedAt (if forward then 1 else -1)
          (pyint max_days).toNat jd_start (speedAt jd_start) with ⟨r, cs⟩
      rw [_hc] at h
      have hr : r = none := h
      subst hr
      rfl
  · intro riseOracle jd h
    unfold calculate_rise_set
    rw [if_neg h]

/-- C3 witness: a rise/set oracle reporting a non-zero status yields the
absence value. -/
theorem window_exhaustion_witness :
    calculate_rise_set (fun _ => (1, 5)) 0 = none :=
  window_exhaustion_absence_or_raise.2.2 (fun _ => (1, 5)) 0 (by norm_num)

/-- C3 counterexample: a constant longitude 50° never crosses target 0°,
so a one-day window is exhausted and `find_planetary_return` raises
`EphemerisError` instead of returning an absence value. -/
theorem planetary_return_raises_cex :
    find_planetary_return 0 (fun _ => 50) 0 0 (4 / 1461) 1 10 10 =
      some (.error .engineError) := by
  norm_num [find_planetary_return, broadLoop, get_diff, pymod]

/-- An ingress event recorded by `EventService.scan_ingresses`:
refined Julian Day and the sign indices on both sides of the boundary. -/
structure IngressEvent where
  julian_day : ℚ
  sign_from : ℤ
  sign_to : ℤ
  deriving DecidableEq

/-- The scanning loop of `EventService.scan_ingresses`
(`while current_jd < end_jd`): step to `min (current_jd + step_days)
end_jd`, recompute the sign `int(longitude / 30)`, and on a sign change
refine by `_refine_ingress` (tolerance `1e-7`); returns the events and
the engine sampling calls in order. -/
def scanIngLoop (planet : ℤ) (lonAt : ℚ → ℚ) (end_jd step_days : ℚ) :
    ℕ → ℚ → ℤ → List IngressEvent × List EngineCall
  | 0, _, _ => ([], [])
  | fuel + 1, current_jd, last_sign =>
    if current_jd < end_jd then
      if pyint (lonAt (min (current_jd + step_days) end_jd) / 30) ≠ last_sign then
        (⟨(refine_ingress lonAt current_jd (min (current_jd + step_days) end_jd)
              last_sign (pyint (lonAt (min (current_jd + step_days) end_jd) / 30))
              (1 / 10 ^ 7)).value,
            last_sign,
            pyint (lonAt (min (current_jd + step_days) end_jd) / 30)⟩ ::
          (scanIngLoop planet lonAt end_jd step_days fuel
              (min (current_jd + step_days) end_jd)
              (pyint (lonAt (min (current_jd + step_days) end_jd) / 30))).1,
          EngineCall.calcPlanet planet (min (current_jd + step_days) end_jd) ::
            ((refine_ingress lonAt current_jd (min (current_jd + step_days) end_jd)
                last_sign (pyint (lonAt (min (current_jd + step_days) end_jd) / 30))
                (1 / 10 ^ 7)).calls.map (EngineCall.calcPlanet planet) ++
              (scanIngLoop planet lonAt end_jd step_days fuel
                  (min (current_jd + step_days) end_jd)
                  (pyint (lonAt (min (current_jd + step_days) end_jd) / 30))).2))
      else
        ((scanIngLoop planet lonAt end_jd step_days fuel
            (min (current_jd + step_days) end_jd)
            (pyint (lonAt (min (current_jd + step_days) end_jd) / 30))).1,
          EngineCall.calcPlanet planet (min (current_jd + step_days) end_jd) ::
            (scanIngLoop planet lonAt end_jd step_days fuel
                (min (current_jd + step_days) end_jd)
                (pyint (lonAt (min (current_jd + step_days) end_jd) / 30))).2)
    else ([], [])

/-- `EventService.scan_ingresses`: sets the sidereal mode (an engine
configuration call), then checks the `MAX_SEARCH_DAYS` guardrail, raising
`SearchRangeTooLargeError` if `end_jd - start_jd > 36525`; otherwise
samples the initial sign and scans.  The second component is the full
ordered engine-call trace. -/
def scan_ingresses (planet : ℤ) (lonAt : ℚ → ℚ)
    (start_jd end_jd step_days : ℚ) (fuel : ℕ) :
    Except SearchError (List IngressEvent) × List EngineCall :=
  if end_jd - start_jd > MAX_SEARCH_DAYS then
    (.error .rangeTooLarge, [.setSidMode])
  else
    (.ok (scanIngLoop planet lonAt end_jd step_days fuel start_jd
        (pyint (lonAt start_jd / 30))).1,
      .setSidMode :: .calcPlanet planet start_jd ::
        (scanIngLoop planet lonAt end_jd step_days fuel start_jd
            (pyint (lonAt start_jd / 30))).2)

/-- `Ephemeris.search_solar_eclipse`: when an end bound is supplied the
guardrail compares `abs (jd_end - jd_start)` against `MAX_SEARCH_DAYS`
before any engine call; otherwise one engine eclipse-search call is made
(its peak Julian Day modelled by the oracle `eclipseAt`). -/
def search_solar_eclipse (eclipseAt : ℚ → ℚ) (jd_start : ℚ)
    (jd_end : Option ℚ) : Except SearchError ℚ × List EngineCall :=
  match jd_end with
  | some e =>
    if |e - jd_start| > MAX_SEARCH_DAYS then (.error .rangeTooLarge, [])
    else (.ok (eclipseAt jd_start), [.eclipseSearch jd_start])
  | none => (.ok (eclipseAt jd_start), [.eclipseSearch jd_start])

/-- C4 (amended): a span strictly over 36,525 days makes every
range-bounded search raise `SearchRangeTooLargeError` before any position
sampling, and a span of at most 36,525 days never triggers the guardrail;
but the engine-invocation count on the raising path is zero only for the
eclipse search — the ingress scan has already issued one engine
configuration call (set sidereal mode) when it raises. -/
theorem guardrail_spans_and_call_counts :
    (∀ (eclipseAt : ℚ → ℚ) (jd_start e : ℚ),
        MAX_SEARCH_DAYS < |e - jd_start| →
        search_solar_eclipse eclipseAt jd_start (some e) =
          (.error .rangeTooLarge, [])) ∧
    (∀ (eclipseAt : ℚ → ℚ) (jd_start e : ℚ),
        |e - jd_start| ≤ MAX_SEARCH_DAYS →
        (search_solar_eclipse eclipseAt jd_start (some e)).1 =
          .ok (eclipseAt jd_start)) ∧
    (∀ (planet : ℤ) (lonAt : ℚ → ℚ) (start_jd end_jd step_days : ℚ)
        (fuel : ℕ), MAX_SEARCH_DAYS < end_jd - start_jd →
        scan_ingresses planet lonAt start_jd end_jd step_days fuel =
          (.error .rangeTooLarge, [.setSidMode])) ∧
    (∀ (planet : ℤ) (lonAt : ℚ → ℚ) (start_jd end_jd step_days : ℚ)
        (fuel : ℕ), end_jd - start_jd ≤ MAX_SEARCH_DAYS →
        ∃ evs, (scan_ingresses planet lonAt start_jd end_jd step_days
            fuel).1 = .ok evs) := by
  refine ⟨?_, ?_, ?_, ?_⟩
  · intro eclipseAt jd_start e h
    unfold search_solar_eclipse
    dsimp only
    rw [if_pos h]
  · intro eclipseAt jd_start e h
    unfold search_solar_eclipse
    dsimp only
    rw [if_neg (not_lt.mpr h)]
  · intro planet lonAt start_jd end_jd step_days fuel h
    unfold scan_ingresses
    rw [if_pos h]
  · intro planet lonAt start_jd end_jd step_days fuel h
    refine ⟨(scanIngLoop planet lonAt end_jd step_days fuel start_jd
        (pyint (lonAt start_jd / 30))).1, ?_⟩
    unfold scan_ingresses
    rw [if_neg (not_lt.mpr h)]

/-- C4 witness: a 200-year eclipse search (73,050-day span) fails fast
with no engine call. -/
theorem guardrail_witness :
    search_solar_eclipse (fun _ => 0) 0 (some 73050) =
      (.error .rangeTooLarge, []) :=
  guardrail_spans_and_call_counts.1 (fun _ => 0) 0 73050
    (by rw [MAX_SEARCH_DAYS]; norm_num)

/-- C4 counterexample: an ingress scan over 36,526 days raises the
guardrail error, but its engine-call trace already holds one invocation
(the sidereal-mode configuration call issued before the range check) —
not the zero invocations the claim requires. -/
theorem scan_ingresses_engine_call_before_guard_cex :
    scan_ingresses 0 (fun _ => 0) 0 36526 1 5 =
      (.error .rangeTooLarge, [.setSidMode]) ∧
    (scan_ingresses 0 (fun _ => 0) 0 36526 1 5).2.length = 1 := by
  have h : scan_ingresses 0 (fun _ => 0) 0 36526 1 5 =
      (.error .rangeTooLarge, [.setSidMode]) := by
    unfold scan_ingresses
    rw [if_pos (by rw [MAX_SEARCH_DAYS]; norm_num)]
  refine ⟨h, ?_⟩
  rw [h]
  rfl

/-- A station event recorded by `EventService.scan_stations`: refined
Julian Day and the sampled speeds before and after the sign flip. -/
structure StationEvt where
  julian_day : ℚ
  speed_before : ℚ
  speed_after : ℚ
  deriving DecidableEq

/-- The `for _ in range(30)` body of `EventService._refine_station`:
bisect on the speed sign, moving the low end (and the tracked `v1`) up
when the midpoint speed has the same strict sign as `v1`, else the high
end down, breaking once the width drops below the tolerance.  Returns the
refined time and the sampled Julian Days. -/
def refineStationAux (speedAt : ℚ → ℚ) (tolerance : ℚ) :
    ℕ → ℚ → ℚ → ℚ → ℚ × List ℚ
  | 0, low, high, _ => ((low + high) / 2, [])
  | fuel + 1, low, high, v1 =>
    if (0 < v1 ∧ 0 < speedAt ((low + high) / 2)) ∨
        (v1 < 0 ∧ speedAt ((low + high) / 2) < 0) then
      if |high - (low + high) / 2| < tolerance then
        (((low + high) / 2 + high) / 2, [(low + high) / 2])
      else
        match refineStationAux speedAt tolerance fuel ((low + high) / 2) high
            (speedAt ((low + high) / 2)) with
        | (v, cs) => (v, (low + high) / 2 :: cs)
    else
      if |(low + high) / 2 - low| < tolerance then
        ((low + (low + high) / 2) / 2, [(low + high) / 2])
      else
        match refineStationAux speedAt tolerance fuel low ((low + high) / 2) v1 with
        | (v, cs) => (v, (low + high) / 2 :: cs)

/-- `EventService._refine_station`: samples the speed at `jd1` first, then
runs the 30-iteration bisection. -/
def refine_station (speedAt : ℚ → ℚ) (jd1 jd2 tolerance : ℚ) : ℚ × List ℚ :=
  match refineStationAux speedAt tolerance 30 jd1 jd2 (speedAt jd1) with
  | (v, cs) => (v, jd1 :: cs)

/-- The scanning loop of `EventService.scan_stations`
(`while current_jd < end_jd`): a station is recorded exactly when the
previous and current sampled speeds have strictly opposite signs
(`last_speed > 0 and current_speed < 0`, or the reverse); the event is
then refined by `_refine_station` (tolerance `1e-7`). -/
def scanStLoop (planet : ℤ) (speedAt : ℚ → ℚ) (end_jd step_days : ℚ) :
    ℕ → ℚ → ℚ → List StationEvt × List EngineCall
  | 0, _, _ => ([], [])
  | fuel + 1, current_jd, last_speed =>
    if current_jd < end_jd then
      match scanStLoop planet speedAt end_jd step_days fuel
          (min (current_jd + step_days) end_jd)
          (speedAt (min (current_jd + step_days) end_jd)) with
      | (evs, calls) =>
        if (0 < last_speed ∧ speedAt (min (current_jd + step_days) end_jd) < 0) ∨
            (last_speed < 0 ∧ 0 < speedAt (min (current_jd + step_days) end_jd)) then
          match refine_station speedAt current_jd
              (min (current_jd + step_days) end_jd) (1 / 10 ^ 7) with
          | (rv, rcs) =>
            (⟨rv, last_speed, speedAt (min (current_jd + step_days) end_jd)⟩ :: evs,
              EngineCall.calcPlanet planet (min (current_jd + step_days) end_jd) ::
                (rcs.map (EngineCall.calcPlanet planet) ++ calls))
        else
          (evs, EngineCall.calcPlanet planet (min (current_jd + step_days) end_jd) ::
            calls)
    else ([], [])

/-- `EventService.scan_stations`: sets the sidereal mode, checks the
`MAX_SEARCH_DAYS` guardrail, then samples the initial speed and scans.
There is no Sun/Moon exclusion at this level.  The second component is
the ordered engine-call trace. -/
def scan_stations (planet : ℤ) (speedAt : ℚ → ℚ)
    (start_jd end_jd step_days : ℚ) (fuel : ℕ) :
    Except SearchError (List StationEvt) × List EngineCall :=
  if end_jd - start_jd > MAX_SEARCH_DAYS then
    (.error .rangeTooLarge, [.setSidMode])
  else
    (.ok (scanStLoop planet speedAt end_jd step_days fuel start_jd
        (speedAt start_jd)).1,
      .setSidMode :: .calcPlanet planet start_jd ::
        (scanStLoop planet speedAt end_jd step_days fuel start_jd
            (speedAt start_jd)).2)

/-- C7 (amended): `Ephemeris.calculate_stationary_point` answers `None`
immediately, with zero engine invocations and no exception, for the Sun
(0) and the Moon (1); but `EventService.scan_stations` applies no such
exclusion — its engine-call trace is never empty, whatever the planet. -/
theorem station_sun_moon_policy :
    (∀ (planet : ℤ) (speedAt : ℚ → ℚ) (jd_start : ℚ) (forward : Bool)
        (max_days : ℚ), planet = 0 ∨ planet = 1 →
        calculate_stationary_point planet speedAt jd_start forward max_days =
          (none, [])) ∧
    (∀ (speedAt : ℚ → ℚ) (start_jd end_jd step_days : ℚ) (fuel : ℕ),
        (scan_stations 0 speedAt start_jd end_jd step_days fuel).2 ≠ []) := by
  constructor
  · intro planet speedAt jd_start forward max_days h
    unfold calculate_stationary_point
    rw [if_pos (Or.inr h)]
  · intro speedAt start_jd end_jd step_days fuel
    unfold scan_stations
    split <;> simp

/-- C7 witness: a Sun station request returns the absence value with an
empty engine-call trace. -/
theorem station_sun_moon_witness :
    calculate_stationary_point 0 (fun _ => 1) 0 true 10 = (none, []) :=
  station_sun_moon_policy.1 0 (fun _ => 1) 0 true 10 (Or.inl rfl)

/-- C7 counterexample: a Sun station scan over two days invokes the engine
four times (sidereal-mode configuration plus three speed samples), so the
claimed "returns not-found immediately, without invoking the engine" is
false for this station search. -/
theorem scan_stations_sun_engine_cex :
    (scan_stations 0 (fun _ => 1) 0 2 1 10).2 =
      [.setSidMode, .calcPlanet 0 0, .calcPlanet 0 1, .calcPlanet 0 2] ∧
    (scan_stations 0 (fun _ => 1) 0 2 1 10).2.length ≠ 0 := by
  have h : (scan_stations 0 (fun _ => 1) 0 2 1 10).2 =
      [.setSidMode, .calcPlanet 0 0, .calcPlanet 0 1, .calcPlanet 0 2] := by
    norm_num [scan_stations, scanStLoop, MAX_SEARCH_DAYS, min_def]
  refine ⟨h, ?_⟩
  rw [h]
  simp

/-- C10 (amended): `EventService.scan_stations` records a station at a
step exactly when the two consecutive sampled speeds have strictly
opposite signs, so a sampled speed of exactly zero never appears in a
recorded event (that step is silently skipped); by contrast
`Ephemeris.calculate_stationary_point` brackets on the non-strict test
`last_speed * current_speed <= 0`, so an exact-zero sample does count as
a detection there. -/
theorem station_scan_strict_sign_flip :
    ∀ (planet : ℤ) (speedAt : ℚ → ℚ) (end_jd step_days : ℚ) (fuel : ℕ)
      (current_jd last_speed : ℚ),
      ∀ e ∈ (scanStLoop planet speedAt end_jd step_days fuel current_jd
          last_speed).1,
        ((0 < e.speed_before ∧ e.speed_after < 0) ∨
          (e.speed_before < 0 ∧ 0 < e.speed_after)) ∧
        e.speed_before ≠ 0 ∧ e.speed_after ≠ 0 := by
  intro planet speedAt end_jd step_days fuel
  induction fuel with
  | zero =>
    intro current_jd last_speed e he
    simp [scanStLoop] at he
  | succ n ih =>
    intro current_jd last_speed e he
    simp only [scanStLoop] at he
    split at he
    · split at he
      · next hbr =>
        rcases List.mem_cons.mp he with hhead | htail
        · subst hhead
          refine ⟨hbr, ?_, ?_⟩
          · rcases hbr with ⟨h1, _⟩ | ⟨h1, _⟩ <;> simp <;> linarith
          · rcases hbr with ⟨_, h2⟩ | ⟨_, h2⟩ <;> simp <;> linarith
        · exact ih _ _ e htail
      · exact ih _ _ e he
    · simp at he

/-- The speed oracle used by the C10 witness and related checks: +1 up to
Julian Day 0 and −1 after it (a clean direction reversal). -/
def flipSpeed (jd : ℚ) : ℚ := if jd ≤ 0 then 1 else -1

/-- C10 witness: scanning across the reversal with a 10⁻⁸-day step records
the station event `(1/400000000, +1, -1)`, whose surrounding sampled
speeds are strictly opposite and non-zero. -/
theorem station_scan_strict_sign_flip_witness :
    ((0 < ((⟨1 / 400000000, 1, -1⟩ : StationEvt)).speed_before ∧
        ((⟨1 / 400000000, 1, -1⟩ : StationEvt)).speed_after < 0) ∨
      (((⟨1 / 400000000, 1, -1⟩ : StationEvt)).speed_before < 0 ∧
        0 < ((⟨1 / 400000000, 1, -1⟩ : StationEvt)).speed_after)) ∧
    ((⟨1 / 400000000, 1, -1⟩ : StationEvt)).speed_before ≠ 0 ∧
    ((⟨1 / 400000000, 1, -1⟩ : StationEvt)).speed_after ≠ 0 :=
  station_scan_strict_sign_flip 4 flipSpeed (1 / 100000000) (1 / 100000000) 1 0 1
    ⟨1 / 400000000, 1, -1⟩ (by
      have hbase : scanStLoop 4 flipSpeed (1 / 100000000) (1 / 100000000) 0
          (min (0 + 1 / 100000000) (1 / 100000000))
          (flipSpeed (min (0 + 1 / 100000000) (1 / 100000000))) = ([], []) := rfl
      have haux : refineStationAux flipSpeed (1 / 10 ^ 7) 30 0
          (min (0 + 1 / 100000000) (1 / 100000000)) (flipSpeed 0) =
          (1 / 400000000, [1 / 200000000]) := by
        have hmin : min (0 + (1 : ℚ) / 100000000) ((1 : ℚ) / 100000000) =
            1 / 100000000 := by norm_num
        have hf0 : flipSpeed 0 = 1 := by norm_num [flipSpeed]
        rw [hmin, hf0]
        rw [show (30 : ℕ) = 29 + 1 from rfl]
        rw [refineStationAux]
        rw [if_neg (by norm_num [flipSpeed])]
        rw [if_pos (by rw [abs_lt]; constructor <;> norm_num)]
        norm_num
      have href : refine_station flipSpeed 0
          (min (0 + 1 / 100000000) (1 / 100000000)) (1 / 10 ^ 7) =
          (1 / 400000000, [0, 1 / 200000000]) := by
        unfold refine_station
        rw [haux]
      rw [show (1 : ℕ) = 0 + 1 from rfl]
      rw [scanStLoop]
      rw [if_pos (by norm_num)]
      rw [hbase]
      dsimp only
      rw [if_pos (by norm_num [flipSpeed, min_def])]
      rw [href]
      norm_num [flipSpeed, min_def])

/-- The speed oracle for the C10 counterexample: +1 before Julian Day 1
and exactly 0 from there on, so the sample at day 1 is exactly zero. -/
def zeroTouchSpeed (jd : ℚ) : ℚ := if jd < 1 then 1 else 0

lemma calculate_stationary_point_isSome (planet : ℤ) (speedAt : ℚ → ℚ)
    (jd_start : ℚ) (forward : Bool) (max_days : ℚ) (c ls : ℚ) (cs : List ℚ)
    (hcond : ¬(planet ∉ ALLOWED_PLANETS ∨ planet = 0 ∨ planet = 1))
    (h : cspLoop speedAt (if forward then 1 else -1) (pyint max_days).toNat
        jd_start (speedAt jd_start) = (some (c, ls), cs)) :
    ((calculate_stationary_point planet speedAt jd_start forward
        max_days).1).isSome = true := by
  unfold calculate_stationary_point
  rw [if_neg hcond]
  dsimp only
  rw [h]
  rcases cspRefine speedAt 20 (c - if forward then 1 else -1) c ls with ⟨v, cs2⟩
  rfl

/-- C10 counterexample: with a sampled speed of exactly zero at day 1,
`Ephemeris.calculate_stationary_point` (product test `<= 0`) does record
a station — it returns a time rather than skipping the zero sample, so
the claim's "a zero sample records no station" is false for the
station search in `core/ephemeris.py`. -/
theorem stationary_point_zero_speed_detected_cex :
    zeroTouchSpeed 1 = 0 ∧
    ((calculate_stationary_point 4 zeroTouchSpeed 0 true 1).1).isSome = true := by
  constructor
  · norm_num [zeroTouchSpeed]
  · have hfuel : (pyint (1 : ℚ)).toNat = 1 := by norm_num [pyint]
    have hloop : cspLoop zeroTouchSpeed (if true then (1 : ℚ) else -1)
        (pyint (1 : ℚ)).toNat 0 (zeroTouchSpeed 0) =
        (some (0 + 1, zeroTouchSpeed 0), [0 + 1]) := by
      rw [hfuel]
      simp only [cspLoop]
      rw [if_pos (by norm_num [zeroTouchSpeed])]
      norm_num
    exact calculate_stationary_point_isSome 4 zeroTouchSpeed 0 true 1
      (0 + 1) (zeroTouchSpeed 0) [0 + 1] (by decide) hloop

/-- The target-longitude computation of
`CrossingService.find_next_ingress`: with non-negative speed the target is
`(floor(lon/30) + 1) * 30`, clamped to 0 when it reaches 360; with
negative (retrograde) speed it is `floor(lon/30) * 30`, with a dead
negative-value branch mapping to 330. -/
def ingressTarget (curr_lon speed : ℚ) : ℚ :=
  if 0 ≤ speed then
    if (360 : ℚ) ≤ ((⌊curr_lon / 30⌋ + 1 : ℤ) : ℚ) * 30 then 0
    else ((⌊curr_lon / 30⌋ + 1 : ℤ) : ℚ) * 30
  else
    if ((⌊curr_lon / 30⌋ : ℤ) : ℚ) * 30 < 0 then 330
    else ((⌊curr_lon / 30⌋ : ℤ) : ℚ) * 30

/-- The reported sign number of `CrossingService.find_next_ingress`:
`int((target_lon / 30) % 12) + 1`, independent of the motion's
direction. -/
def ingressSign (target_lon : ℚ) : ℤ :=
  pyint (pymod (target_lon / 30) 12) + 1

/-- `CrossingService.find_next_ingress`: compute the target boundary from
the sampled position and speed, delegate to `find_planetary_return`, and
report the sign number derived from the target alone. -/
def find_next_ingress (planet : ℤ) (lonAt : ℚ → ℚ)
    (curr_lon curr_speed jd_start max_search_years : ℚ) (fuel1 fuel2 : ℕ) :
    Option (Except SearchError (ℚ × ℤ)) :=
  match find_planetary_return planet lonAt (ingressTarget curr_lon curr_speed)
      jd_start max_search_years 1 fuel1 fuel2 with
  | none => none
  | some (.error e) => some (.error e)
  | some (.ok t) => some (.ok (t, ingressSign (ingressTarget curr_lon curr_speed)))

lemma floor_div30_bounds (L : ℚ) (h0 : 0 ≤ L) (h1 : L < 360) :
    0 ≤ ⌊L / 30⌋ ∧ ⌊L / 30⌋ ≤ 11 := by
  constructor
  · exact Int.floor_nonneg.mpr (by positivity)
  · have : ⌊L / 30⌋ < 12 := Int.floor_lt.mpr (by push_cast; linarith)
    omega

/-- C5 (amended): for a starting longitude in `[0, 360)`, the forward
target is the next higher multiple of 30° taken mod 360 as claimed, but
the retrograde target is `floor(L/30) * 30` — the greatest multiple of 30°
not exceeding `L` — which equals `L` itself whenever `L` already lies on a
boundary, rather than the next lower multiple strictly before `L`. -/
theorem ingress_target_directional (L s : ℚ) (h0 : 0 ≤ L) (h1 : L < 360) :
    (0 ≤ s → ingressTarget L s = pymod (((⌊L / 30⌋ + 1 : ℤ) : ℚ) * 30) 360) ∧
    (s < 0 → ingressTarget L s = ((⌊L / 30⌋ : ℤ) : ℚ) * 30) := by
  obtain ⟨hlo, hhi⟩ := floor_div30_bounds L h0 h1
  constructor
  · intro hs
    unfold ingressTarget
    rw [if_pos hs]
    by_cases hc : (360 : ℚ) ≤ ((⌊L / 30⌋ + 1 : ℤ) : ℚ) * 30
    · rw [if_pos hc]
      have he : ((⌊L / 30⌋ + 1 : ℤ) : ℚ) * 30 = 360 := by
        have : ⌊L / 30⌋ ≤ 11 := hhi
        have h12 : ((⌊L / 30⌋ + 1 : ℤ) : ℚ) ≤ 12 := by exact_mod_cast by omega
        have h12' : (12 : ℚ) ≤ ((⌊L / 30⌋ + 1 : ℤ) : ℚ) := by linarith
        have : ((⌊L / 30⌋ + 1 : ℤ) : ℚ) = 12 := le_antisymm h12 h12'
        rw [this]; norm_num
      rw [he]
      unfold pymod
      norm_num
    · rw [if_neg hc]
      push_neg at hc
      have hge : (0 : ℚ) ≤ ((⌊L / 30⌋ + 1 : ℤ) : ℚ) * 30 := by
        have h' : (0 : ℚ) ≤ ((⌊L / 30⌋ + 1 : ℤ) : ℚ) := by exact_mod_cast by omega
        linarith
      have hfl : ⌊((⌊L / 30⌋ + 1 : ℤ) : ℚ) * 30 / 360⌋ = 0 := by
        apply Int.floor_eq_zero_iff.mpr
        rw [Set.mem_Ico]
        constructor
        · positivity
        · rw [div_lt_one (by norm_num)]
          linarith
      rw [eq_comm]
      unfold pymod
      rw [hfl]
      push_cast
      ring
  · intro hs
    unfold ingressTarget
    rw [if_neg (not_le.mpr hs)]
    rw [if_neg]
    push_neg
    have : (0 : ℚ) ≤ ((⌊L / 30⌋ : ℤ) : ℚ) := by exact_mod_cast hlo
    linarith

/-- C5 witness: at longitude 45° moving forward the target is 60°. -/
theorem ingress_target_witness :
    ingressTarget 45 1 = pymod (((⌊(45 : ℚ) / 30⌋ + 1 : ℤ) : ℚ) * 30) 360 :=
  (ingress_target_directional 45 1 (by norm_num) (by norm_num)).1 (by norm_num)

/-- C5 counterexample: at longitude exactly 60° with retrograde motion the
computed target is 60° — equal to the starting boundary itself, not the
next lower multiple (30°), contradicting the claim's "never equal" part. -/
theorem ingress_target_boundary_retrograde_cex :
    ingressTarget 60 (-1) = 60 := by
  unfold ingressTarget
  rw [if_neg (by norm_num)]
  rw [if_neg (by norm_num)]
  norm_num

lemma ingressTarget_is_mult30 (L s : ℚ) (h0 : 0 ≤ L) (h1 : L < 360) :
    ∃ k : ℤ, 0 ≤ k ∧ k < 12 ∧ ingressTarget L s = (k : ℚ) * 30 := by
  obtain ⟨hlo, hhi⟩ := floor_div30_bounds L h0 h1
  unfold ingressTarget
  by_cases hs : 0 ≤ s
  · rw [if_pos hs]
    by_cases hc : (360 : ℚ) ≤ ((⌊L / 30⌋ + 1 : ℤ) : ℚ) * 30
    · rw [if_pos hc]
      exact ⟨0, le_refl 0, by norm_num, by norm_num⟩
    · rw [if_neg hc]
      push_neg at hc
      refine ⟨⌊L / 30⌋ + 1, by omega, ?_, by push_cast; ring⟩
      by_contra hk
      push_neg at hk
      have : (12 : ℚ) ≤ ((⌊L / 30⌋ + 1 : ℤ) : ℚ) := by exact_mod_cast hk
      linarith
  · rw [if_neg hs]
    rw [if_neg]
    · exact ⟨⌊L / 30⌋, hlo, by omega, rfl⟩
    · push_neg
      have h' : (0 : ℚ) ≤ ((⌊L / 30⌋ : ℤ) : ℚ) := by exact_mod_cast hlo
      linarith

lemma ingressSign_of_mult30 (k : ℤ) (h0 : 0 ≤ k) (h1 : k < 12) :
    ingressSign ((k : ℚ) * 30) = k + 1 ∧
    ⌊(k : ℚ) * 30 / 30⌋ % 12 + 1 = k + 1 := by
  have hdiv : ((k : ℚ) * 30) / 30 = (k : ℚ) := by field_simp
  have hfl12 : ⌊(k : ℚ) / 12⌋ = 0 := by
    apply Int.floor_eq_zero_iff.mpr
    rw [Set.mem_Ico]
    constructor
    · positivity
    · rw [div_lt_one (by norm_num)]
      exact_mod_cast h1
  have hpm : pymod (k : ℚ) 12 = (k : ℚ) := by
    unfold pymod
    rw [hfl12]
    push_cast
    ring
  constructor
  · unfold ingressSign pyint
    rw [hdiv, hpm]
    rw [if_pos (by positivity)]
    rw [Int.floor_intCast]
  · rw [hdiv, Int.floor_intCast, Int.emod_eq_of_lt h0 h1]

/-- C6 (amended): the sign index reported by the ingress finder is
`floor(target/30) mod 12 + 1` for both directions of motion — the code
never applies the retrograde adjustment, so for a retrograde crossing the
reported index names the sign on the upper side of the boundary (the sign
being left), not the sign entered.  The index always lies in `1..12`. -/
theorem ingress_sign_reported (L s : ℚ) (h0 : 0 ≤ L) (h1 : L < 360) :
    ingressSign (ingressTarget L s) =
      ⌊ingressTarget L s / 30⌋ % 12 + 1 ∧
    1 ≤ ingressSign (ingressTarget L s) ∧
    ingressSign (ingressTarget L s) ≤ 12 := by
  obtain ⟨k, hk0, hk1, hk⟩ := ingressTarget_is_mult30 L s h0 h1
  obtain ⟨hsg, hfm⟩ := ingressSign_of_mult30 k hk0 hk1
  rw [hk, hsg, hfm]
  omega

/-- C6 witness: at longitude 45° moving forward the reported sign is the
claimed `floor(target/30) mod 12 + 1` and lies in `1..12`. -/
theorem ingress_sign_witness :
    ingressSign (ingressTarget 45 1) = ⌊ingressTarget 45 1 / 30⌋ % 12 + 1 ∧
    1 ≤ ingressSign (ingressTarget 45 1) ∧
    ingressSign (ingressTarget 45 1) ≤ 12 :=
  ingress_sign_reported 45 1 (by norm_num) (by norm_num)

/-- C6 counterexample: at longitude 45° moving retrograde the target is
30° and the code reports sign 2 (Taurus, the sign above the boundary); the
claim demands `(floor(target/30) - 1) mod 12 + 1 = 1` (Aries, the sign
actually entered), so the reported index differs from the claimed one. -/
theorem ingress_sign_retrograde_cex :
    ingressSign (ingressTarget 45 (-1)) = 2 ∧
    (⌊ingressTarget 45 (-1) / 30⌋ - 1) % 12 + 1 = 1 ∧
    ingressSign (ingressTarget 45 (-1)) ≠
      (⌊ingressTarget 45 (-1) / 30⌋ - 1) % 12 + 1 := by
  have ht : ingressTarget 45 (-1) = 30 := by
    unfold ingressTarget
    rw [if_neg (by norm_num)]
    rw [if_neg (by norm_num)]
    norm_num
  have hs : ingressSign (30 : ℚ) = 2 := by
    unfold ingressSign pyint pymod
    norm_num
  refine ⟨by rw [ht, hs], ?_, ?_⟩
  · rw [ht]
    norm_num
  · rw [ht, hs]
    norm_num

/-- One horizon/meridian event collected by `ParanService.find_parans`:
planet, event kind (0 = Rise, 1 = Set, 2 = Transit, 3 = IC), time. -/
structure HEvent where
  planet : ℤ
  etype : ℕ
  jd : ℚ
  deriving DecidableEq

/-- One reported paran pair, with the mean time and the pair's orb in
minutes (`abs (jd1 - jd2) * 24 * 60`). -/
structure Paran where
  p1 : ℤ
  type1 : ℕ
  p2 : ℤ
  type2 : ℕ
  time : ℚ
  orb_minutes : ℚ
  deriving DecidableEq

/-- The record appended by `ParanService.find_parans` for a qualifying
pair. -/
def mkParan (e1 e2 : HEvent) : Paran :=
  ⟨e1.planet, e1.etype, e2.planet, e2.etype, (e1.jd + e2.jd) / 2,
    |e1.jd - e2.jd| * (24 * 60)⟩

/-- The inner loop (`for j in range(i + 1, len(events))`) of the pairwise
comparison in `ParanService.find_parans`: keep, in order, every later
event within `orb_minutes / (24 * 60)` days of `e1`. -/
def paranInner (orb_minutes : ℚ) (e1 : HEvent) : List HEvent → List Paran
  | [] => []
  | e2 :: rest =>
    if |e1.jd - e2.jd| ≤ orb_minutes / (24 * 60) then
      mkParan e1 e2 :: paranInner orb_minutes e1 rest
    else paranInner orb_minutes e1 rest

/-- The outer loop (`for i in range(len(events))`) of the pairwise
comparison in `ParanService.find_parans` (the event-collection stage that
produces `events` with four engine queries per body is upstream of this
loop). -/
def find_parans_pairs (orb_minutes : ℚ) : List HEvent → List Paran
  | [] => []
  | e1 :: rest =>
    paranInner orb_minutes e1 rest ++ find_parans_pairs orb_minutes rest

/-- Specification-side enumeration of the index pairs `i < j` in discovery
order: outer loop by first event, inner loop by later events. -/
def orderedPairs : List HEvent → List (HEvent × HEvent)
  | [] => []
  | x :: rest => rest.map (fun y => (x, y)) ++ orderedPairs rest

lemma paranInner_eq (orb : ℚ) (e1 : HEvent) (l : List HEvent) :
    paranInner orb e1 l =
      (l.filter (fun e2 => decide (|e1.jd - e2.jd| ≤ orb / (24 * 60)))).map
        (fun e2 => mkParan e1 e2) := by
  induction l with
  | nil => rfl
  | cons e2 rest ih =>
    unfold paranInner
    rw [List.filter_cons]
    by_cases hc : |e1.jd - e2.jd| ≤ orb / (24 * 60)
    · rw [if_pos hc, if_pos (by simpa using hc), List.map_cons, ih]
    · rw [if_neg hc, if_neg (by simpa using hc), ih]

lemma filter_map_pair (orb : ℚ) (e1 : HEvent) (l : List HEvent) :
    ((l.map (fun y => (e1, y))).filter
        (fun q => decide (|q.1.jd - q.2.jd| ≤ orb / (24 * 60)))).map
      (fun q => mkParan q.1 q.2) =
    (l.filter (fun e2 => decide (|e1.jd - e2.jd| ≤ orb / (24 * 60)))).map
      (fun e2 => mkParan e1 e2) := by
  induction l with
  | nil => rfl
  | cons e2 rest ih =>
    simp only [List.map_cons, List.filter_cons]
    by_cases hc : |e1.jd - e2.jd| ≤ orb / (24 * 60)
    · rw [if_pos (by simpa using hc), if_pos (by simpa using hc)]
      simp only [List.map_cons]
      rw [ih]
    · rw [if_neg (by simpa using hc), if_neg (by simpa using hc)]
      exact ih

lemma find_parans_pairs_eq (orb : ℚ) (events : List HEvent) :
    find_parans_pairs orb events =
      ((orderedPairs events).filter
          (fun q => decide (|q.1.jd - q.2.jd| ≤ orb / (24 * 60)))).map
        (fun q => mkParan q.1 q.2) := by
  induction events with
  | nil => rfl
  | cons e1 rest ih =>
    unfold find_parans_pairs orderedPairs
    rw [List.filter_append, List.map_append, ih, paranInner_eq,
      filter_map_pair]

/-- C9: every paran pair reported by the pairwise loop of
`ParanService.find_parans` has `|t1 - t2| <= orbMinutes / 1440` (its
reported orb in minutes is at most `orbMinutes`), and the result list is
exactly the in-discovery-order enumeration of qualifying `i < j` pairs
(outer loop by first event, inner by later events), not sorted by
tightness. -/
theorem paran_orb_bound_and_order :
    (∀ (events : List HEvent) (orb_minutes : ℚ),
        find_parans_pairs orb_minutes events =
          ((orderedPairs events).filter
              (fun q => decide (|q.1.jd - q.2.jd| ≤ orb_minutes / (24 * 60)))).map
            (fun q => mkParan q.1 q.2)) ∧
    (∀ (events : List HEvent) (orb_minutes : ℚ) (p : Paran),
        p ∈ find_parans_pairs orb_minutes events →
        p.orb_minutes ≤ orb_minutes) := by
  constructor
  · exact fun events orb => find_parans_pairs_eq orb events
  · intro events orb p hp
    rw [find_parans_pairs_eq] at hp
    obtain ⟨q, hq, hpq⟩ := List.mem_map.mp hp
    obtain ⟨-, hcond⟩ := List.mem_filter.mp hq
    have hle : |q.1.jd - q.2.jd| ≤ orb / (24 * 60) := by simpa using hcond
    have : p.orb_minutes = |q.1.jd - q.2.jd| * (24 * 60) := by
      rw [← hpq]
      rfl
    rw [this]
    rw [← le_div_iff₀ (by norm_num : (0 : ℚ) < 24 * 60)]
    exact hle

/-- C9 witness: two events one minute apart qualify under a five-minute
orb and the reported pair's orb (1 minute) is at most 5. -/
theorem paran_orb_bound_witness :
    (mkParan ⟨0, 0, 0⟩ ⟨1, 1, 1 / 1440⟩).orb_minutes ≤ 5 :=
  paran_orb_bound_and_order.2 [⟨0, 0, 0⟩, ⟨1, 1, 1 / 1440⟩] 5
    (mkParan ⟨0, 0, 0⟩ ⟨1, 1, 1 / 1440⟩)
    (by norm_num [find_parans_pairs, paranInner, abs_le])
